import Mathlib

/-!
# Verification of the maccms10-api manifest proxy and search orchestrator

A shallow embedding of `src/main.py` (together with the helpers it uses from
`src/config.py`) of the maccms10-api-mcp repository.  Text is modelled as its
UTF-8 byte sequence (`List Nat`, every element `< 256`): Python `str` values
are manipulated here through byte lists, which is faithful because every
delimiter the code splits on (`\n`, `#`, `$`, `/`, `%`) is ASCII and UTF-8
continuation bytes are all `≥ 128`.

Sections:
* byte/string helpers;
* the two URL codecs used by the proxy (`urllib.parse.quote/unquote` with
  `safe=''`, and `base64.urlsafe_b64encode/urlsafe_b64decode`) plus the
  inbound decoder of `proxy_m3u8`;
* the manifest rewriters of `proxy_m3u8_url_encoded` and `proxy_m3u8`;
* the playlist extractor of `fetch_episodes_data`;
* the search client `fetch_and_parse_search_result` and the orchestrator
  `search_movie_endpoint`;
* the response-header builders of both proxy handlers;
* `fetch_episodes_data` / `get_episodes_data` end to end.
-/

/-- UTF-8 encoding of one character (RFC 3629), used to view Lean string
literals as the byte sequences the Python code manipulates. -/
def utf8Char (c : Char) : List Nat :=
  if c.toNat < 128 then [c.toNat]
  else if c.toNat < 2048 then [192 + c.toNat / 64, 128 + c.toNat % 64]
  else if c.toNat < 65536 then
    [224 + c.toNat / 4096, 128 + c.toNat / 64 % 64, 128 + c.toNat % 64]
  else
    [240 + c.toNat / 262144, 128 + c.toNat / 4096 % 64, 128 + c.toNat / 64 % 64,
      128 + c.toNat % 64]

/-- The UTF-8 bytes of a string literal. -/
def S (s : String) : List Nat := s.data.flatMap utf8Char

/-- Every UTF-8 byte is `< 256`. -/
theorem utf8Char_lt (c : Char) : ∀ b ∈ utf8Char c, b < 256 := by
  have hval : c.toNat < 1114112 := by
    rcases c.valid with h | h
    · have : c.val.toNat < 55296 := h
      simp only [Char.toNat]; omega
    · obtain ⟨_, h2⟩ := h
      have : c.val.toNat < 1114112 := h2
      simp only [Char.toNat]; omega
  intro b hb
  unfold utf8Char at hb
  split at hb
  · simp only [List.mem_singleton] at hb; omega
  · split at hb
    · simp only [List.mem_cons, List.not_mem_nil, or_false] at hb
      rcases hb with h | h <;> omega
    · split at hb
      · simp only [List.mem_cons, List.not_mem_nil, or_false] at hb
        rcases hb with h | h | h <;> omega
      · simp only [List.mem_cons, List.not_mem_nil, or_false] at hb
        rcases hb with h | h | h | h <;> omega

/-- Every byte of `S s` is `< 256`. -/
theorem S_lt (s : String) : ∀ b ∈ S s, b < 256 := by
  intro b hb
  simp only [S, List.mem_flatMap] at hb
  obtain ⟨c, _, hc⟩ := hb
  exact utf8Char_lt c b hc

/-! ## Percent codec (`urllib.parse.quote` / `urllib.parse.unquote`)

`proxy_m3u8_url_encoded.replace_relative_paths` encodes rewritten URLs with
`urllib.parse.quote(absolute_url, safe='')`; both proxy handlers decode
inbound URLs with `urllib.parse.unquote`.  `quote` leaves exactly the
unreserved bytes `A-Z a-z 0-9 _ . - ~` literal and writes every other byte as
`%XX` with uppercase hex; `unquote` turns every `%` followed by two hex digits
back into a byte and leaves a `%` not followed by two hex digits as-is. -/

/-- Bytes `urllib.parse.quote` never encodes, even with `safe=''`. -/
def alwaysSafe (b : Nat) : Bool :=
  (65 ≤ b && b ≤ 90) || (97 ≤ b && b ≤ 122) || (48 ≤ b && b ≤ 57) ||
    b == 95 || b == 46 || b == 126 || b == 45

/-- Uppercase hex digit of a nibble, as in `quote`'s `%XX` output. -/
def hexDigitU (n : Nat) : Nat := if n < 10 then 48 + n else 55 + n

/-- `urllib.parse.quote(·, safe='')` over UTF-8 bytes. -/
def percentEncode : List Nat → List Nat
  | [] => []
  | b :: rest =>
    (if alwaysSafe b then [b] else [37, hexDigitU (b / 16), hexDigitU (b % 16)])
      ++ percentEncode rest

/-- Hex digit test (`0-9`, `A-F`, `a-f`), as accepted by `unquote`. -/
def isHexDigit (c : Nat) : Bool := (48 ≤ c && c ≤ 57) || (65 ≤ c && c ≤ 70) || (97 ≤ c && c ≤ 102)

/-- Value of a hex digit byte. -/
def hexVal (c : Nat) : Nat := if c ≤ 57 then c - 48 else if c ≤ 70 then c - 55 else c - 87

/-- `urllib.parse.unquote` over bytes: each `%XX` with hex digits becomes one
byte, a `%` without two hex digits stays literal. -/
def percentDecode : List Nat → List Nat
  | [] => []
  | [b] => [b]
  | [b, c] => [b, c]
  | b :: h1 :: h2 :: rest =>
    if b == 37 && isHexDigit h1 && isHexDigit h2 then
      (hexVal h1 * 16 + hexVal h2) :: percentDecode rest
    else b :: percentDecode (h1 :: h2 :: rest)

/-! ## URL-safe base64 (`base64.urlsafe_b64encode` / `urlsafe_b64decode`)

`proxy_m3u8.replace_relative_paths` encodes rewritten URLs with
`base64.urlsafe_b64encode(absolute_path.encode()).decode()`; `proxy_m3u8`
decodes with `base64.urlsafe_b64decode`.  The decoder is modelled on
well-formed inputs (blocks of four alphabet characters with `=` padding only
in the final block); any other input decodes to `none`, standing for the
`binascii.Error` the Python decoder raises. -/

/-- URL-safe base64 alphabet: 6-bit value to ASCII byte (`A-Z a-z 0-9 - _`). -/
def b64c (n : Nat) : Nat :=
  if n < 26 then 65 + n
  else if n < 52 then 97 + (n - 26)
  else if n < 62 then 48 + (n - 52)
  else if n = 62 then 45 else 95

/-- Inverse of `b64c`: alphabet byte to 6-bit value. -/
def b64v (c : Nat) : Option Nat :=
  if 65 ≤ c ∧ c ≤ 90 then some (c - 65)
  else if 97 ≤ c ∧ c ≤ 122 then some (c - 97 + 26)
  else if 48 ≤ c ∧ c ≤ 57 then some (c - 48 + 52)
  else if c = 45 then some 62
  else if c = 95 then some 63
  else none

/-- `base64.urlsafe_b64encode` over bytes. -/
def b64encode : List Nat → List Nat
  | [] => []
  | [a] => [b64c (a / 4), b64c (a % 4 * 16), 61, 61]
  | [a, b] => [b64c (a / 4), b64c (a % 4 * 16 + b / 16), b64c (b % 16 * 4), 61]
  | a :: b :: c :: rest =>
    b64c (a / 4) :: b64c (a % 4 * 16 + b / 16) :: b64c (b % 16 * 4 + c / 64) ::
      b64c (c % 64) :: b64encode rest

/-- `base64.urlsafe_b64decode` over bytes (well-formed inputs). -/
def b64decode : List Nat → Option (List Nat)
  | [] => some []
  | w :: x :: y :: z :: rest =>
    if y = 61 ∧ z = 61 ∧ rest = [] then
      (b64v w).bind fun a => (b64v x).map fun b => [a * 4 + b / 16]
    else if z = 61 ∧ rest = [] then
      (b64v w).bind fun a => (b64v x).bind fun b => (b64v y).map fun c =>
        [a * 4 + b / 16, b % 16 * 16 + c / 4]
    else
      (b64v w).bind fun a => (b64v x).bind fun b => (b64v y).bind fun c =>
        (b64v z).bind fun d => (b64decode rest).map fun tail =>
          (a * 4 + b / 16) :: (b % 16 * 16 + c / 4) :: (c % 4 * 64 + d) :: tail
  | _ => none

/-! ## The inbound decoder of `proxy_m3u8` (src/main.py lines 819-845) -/

/-- `"http://"` as bytes. -/
def httpBytes : List Nat := S "http://"

/-- `"https://"` as bytes. -/
def httpsBytes : List Nat := S "https://"

/-- `url.startswith("http://") or url.startswith("https://")`. -/
def startsWithHttp (l : List Nat) : Bool :=
  httpBytes.isPrefixOf l || httpsBytes.isPrefixOf l

/-- The decode step of `proxy_m3u8`: percent-decode first; if the result is
not an absolute http/https URL, base64-decode the original path; a base64
failure or a decoded value that is still not absolute yields the 400 error,
modelled as `none`. -/
def decodeInboundUrl (encoded : List Nat) : Option (List Nat) :=
  let u := percentDecode encoded
  if startsWithHttp u then some u
  else
    match b64decode encoded with
    | none => none
    | some v => if startsWithHttp v then some v else none

/-! ## Codec round-trip lemmas -/

theorem alwaysSafe_ne37 {b : Nat} (h : alwaysSafe b = true) : b ≠ 37 := by
  intro heq; subst heq; exact absurd h (by decide)

theorem percentDecode_cons (b : Nat) (l : List Nat) (hb : b ≠ 37) :
    percentDecode (b :: l) = b :: percentDecode l := by
  match l with
  | [] => rfl
  | [c] => rfl
  | c1 :: c2 :: t =>
    have : (b == 37 && isHexDigit c1 && isHexDigit c2) = false := by
      simp [hb]
    simp [percentDecode, this]

theorem hexVal_hexDigitU : ∀ n, n < 16 → hexVal (hexDigitU n) = n := by decide

theorem isHexDigit_hexDigitU : ∀ n, n < 16 → isHexDigit (hexDigitU n) = true := by decide

/-- `unquote` undoes `quote(·, safe='')` byte for byte. -/
theorem percentDecode_percentEncode :
    ∀ u : List Nat, (∀ b ∈ u, b < 256) → percentDecode (percentEncode u) = u := by
  intro u
  induction u with
  | nil => intro _; rfl
  | cons b rest ih =>
    intro hu
    have hb : b < 256 := hu b (by simp)
    have hrest : ∀ x ∈ rest, x < 256 := fun x hx => hu x (by simp [hx])
    by_cases hs : alwaysSafe b = true
    · rw [show percentEncode (b :: rest) = b :: percentEncode rest by
          simp [percentEncode, hs]]
      rw [percentDecode_cons b _ (alwaysSafe_ne37 hs), ih hrest]
    · rw [show percentEncode (b :: rest)
            = 37 :: hexDigitU (b / 16) :: hexDigitU (b % 16) :: percentEncode rest by
          simp [percentEncode, hs]]
      have hcond : (37 == 37 && isHexDigit (hexDigitU (b / 16))
          && isHexDigit (hexDigitU (b % 16))) = true := by
        simp [isHexDigit_hexDigitU (b / 16) (by omega), isHexDigit_hexDigitU (b % 16) (by omega)]
      simp only [percentDecode, hcond, if_pos]
      rw [hexVal_hexDigitU (b / 16) (by omega), hexVal_hexDigitU (b % 16) (by omega), ih hrest]
      congr 1
      omega

/-- `unquote` leaves a percent-free byte string untouched. -/
theorem percentDecode_of_no37 :
    ∀ l : List Nat, (∀ b ∈ l, b ≠ 37) → percentDecode l = l := by
  intro l
  induction l with
  | nil => intro _; rfl
  | cons b rest ih =>
    intro h
    rw [percentDecode_cons b rest (h b (by simp)), ih (fun x hx => h x (by simp [hx]))]

theorem b64c_ne : ∀ n, n < 64 → b64c n ≠ 37 ∧ b64c n ≠ 58 ∧ b64c n ≠ 61 := by decide

theorem b64v_b64c : ∀ n, n < 64 → b64v (b64c n) = some n := by decide

/-- Every byte of a base64url encoding is in the alphabet (plus `=`), hence
never `%` (37) and never `:` (58). -/
theorem b64encode_mem :
    ∀ u : List Nat, (∀ b ∈ u, b < 256) → ∀ x ∈ b64encode u, x ≠ 37 ∧ x ≠ 58
  | [] => by intro _ x hx; simp [b64encode] at hx
  | [a] => by
    intro hu x hx
    have ha : a < 256 := hu a (by simp)
    simp only [b64encode, List.mem_cons, List.not_mem_nil, or_false] at hx
    rcases hx with h | h | h | h <;> subst h
    · exact ⟨(b64c_ne _ (by omega)).1, (b64c_ne _ (by omega)).2.1⟩
    · exact ⟨(b64c_ne _ (by omega)).1, (b64c_ne _ (by omega)).2.1⟩
    · exact ⟨by omega, by omega⟩
    · exact ⟨by omega, by omega⟩
  | [a, b] => by
    intro hu x hx
    have ha : a < 256 := hu a (by simp)
    have hb : b < 256 := hu b (by simp)
    simp only [b64encode, List.mem_cons, List.not_mem_nil, or_false] at hx
    rcases hx with h | h | h | h <;> subst h
    · exact ⟨(b64c_ne _ (by omega)).1, (b64c_ne _ (by omega)).2.1⟩
    · exact ⟨(b64c_ne _ (by omega)).1, (b64c_ne _ (by omega)).2.1⟩
    · exact ⟨(b64c_ne _ (by omega)).1, (b64c_ne _ (by omega)).2.1⟩
    · exact ⟨by omega, by omega⟩
  | a :: b :: c :: rest => by
    intro hu x hx
    have ha : a < 256 := hu a (by simp)
    have hb : b < 256 := hu b (by simp)
    have hc : c < 256 := hu c (by simp)
    have hrest : ∀ y ∈ rest, y < 256 := fun y hy => hu y (by simp [hy])
    simp only [b64encode, List.mem_cons] at hx
    rcases hx with h | h | h | h | h
    · subst h; exact ⟨(b64c_ne _ (by omega)).1, (b64c_ne _ (by omega)).2.1⟩
    · subst h; exact ⟨(b64c_ne _ (by omega)).1, (b64c_ne _ (by omega)).2.1⟩
    · subst h; exact ⟨(b64c_ne _ (by omega)).1, (b64c_ne _ (by omega)).2.1⟩
    · subst h; exact ⟨(b64c_ne _ (by omega)).1, (b64c_ne _ (by omega)).2.1⟩
    · exact b64encode_mem rest hrest x h

/-- `urlsafe_b64decode` undoes `urlsafe_b64encode`. -/
theorem b64decode_b64encode :
    ∀ u : List Nat, (∀ b ∈ u, b < 256) → b64decode (b64encode u) = some u
  | [] => by intro _; rfl
  | [a] => by
    intro hu
    have ha : a < 256 := hu a (by simp)
    show b64decode [b64c (a / 4), b64c (a % 4 * 16), 61, 61] = some [a]
    rw [b64decode]
    rw [if_pos ⟨rfl, rfl, rfl⟩]
    rw [b64v_b64c (a / 4) (by omega), b64v_b64c (a % 4 * 16) (by omega)]
    simp only [Option.some_bind, Option.map_some', Option.some.injEq, List.cons.injEq,
      and_true]
    omega
  | [a, b] => by
    intro hu
    have ha : a < 256 := hu a (by simp)
    have hb : b < 256 := hu b (by simp)
    show b64decode [b64c (a / 4), b64c (a % 4 * 16 + b / 16), b64c (b % 16 * 4), 61]
        = some [a, b]
    rw [b64decode]
    rw [if_neg (by
      intro hcon
      exact absurd hcon.1 (b64c_ne (b % 16 * 4) (by omega)).2.2)]
    rw [if_pos ⟨rfl, rfl⟩]
    rw [b64v_b64c (a / 4) (by omega), b64v_b64c (a % 4 * 16 + b / 16) (by omega),
      b64v_b64c (b % 16 * 4) (by omega)]
    simp only [Option.some_bind, Option.map_some', Option.some.injEq, List.cons.injEq,
      and_true]
    constructor
    · omega
    · omega
  | a :: b :: c :: rest => by
    intro hu
    have ha : a < 256 := hu a (by simp)
    have hb : b < 256 := hu b (by simp)
    have hc : c < 256 := hu c (by simp)
    have hrest : ∀ y ∈ rest, y < 256 := fun y hy => hu y (by simp [hy])
    show b64decode (b64c (a / 4) :: b64c (a % 4 * 16 + b / 16) :: b64c (b % 16 * 4 + c / 64)
        :: b64c (c % 64) :: b64encode rest) = some (a :: b :: c :: rest)
    rw [b64decode]
    rw [if_neg (by
      intro hcon
      exact absurd hcon.1 (b64c_ne (b % 16 * 4 + c / 64) (by omega)).2.2)]
    rw [if_neg (by
      intro hcon
      exact absurd hcon.1 (b64c_ne (c % 64) (by omega)).2.2)]
    rw [b64v_b64c (a / 4) (by omega), b64v_b64c (a % 4 * 16 + b / 16) (by omega),
      b64v_b64c (b % 16 * 4 + c / 64) (by omega), b64v_b64c (c % 64) (by omega),
      b64decode_b64encode rest hrest]
    simp only [Option.some_bind, Option.map_some', Option.some.injEq, List.cons.injEq]
    refine ⟨by omega, by omega, by omega, trivial⟩

/-- An absolute http/https URL contains the byte `:`. -/
theorem startsWithHttp_mem58 {l : List Nat} (h : startsWithHttp l = true) : 58 ∈ l := by
  simp only [startsWithHttp, Bool.or_eq_true] at h
  rcases h with h | h
  · obtain ⟨t, ht⟩ := (List.isPrefixOf_iff_prefix.mp h)
    subst ht
    have : (58 : Nat) ∈ httpBytes := by decide
    exact List.mem_append_left _ this
  · obtain ⟨t, ht⟩ := (List.isPrefixOf_iff_prefix.mp h)
    subst ht
    have : (58 : Nat) ∈ httpsBytes := by decide
    exact List.mem_append_left _ this

/-- C4: for every absolute http/https URL, encoding it in either addressing
mode (percent-encoding with no characters kept safe, or URL-safe base64) and
decoding it through the proxy's inbound decoder (percent-decode first; if the
result is not an absolute http/https URL, base64-decode) recovers the
original URL exactly. -/
theorem c4_roundtrip (u : List Nat) (hu : ∀ b ∈ u, b < 256)
    (habs : startsWithHttp u = true) :
    decodeInboundUrl (percentEncode u) = some u
      ∧ decodeInboundUrl (b64encode u) = some u := by
  constructor
  · simp only [decodeInboundUrl, percentDecode_percentEncode u hu, habs, if_pos]
  · have hno37 : ∀ x ∈ b64encode u, x ≠ 37 := fun x hx => (b64encode_mem u hu x hx).1
    have hid : percentDecode (b64encode u) = b64encode u := percentDecode_of_no37 _ hno37
    have hnohttp : startsWithHttp (b64encode u) = false := by
      by_contra hcon
      have h58 : 58 ∈ b64encode u :=
        startsWithHttp_mem58 (by revert hcon; cases startsWithHttp (b64encode u) <;> simp)
      exact absurd rfl (b64encode_mem u hu 58 h58).2
    simp only [decodeInboundUrl, hid, hnohttp, Bool.false_eq_true, if_false,
      b64decode_b64encode u hu, habs, if_pos]

/-- Witness for C4 at the concrete URL `http://a.example/x.m3u8`. -/
theorem c4_roundtrip_witness :
    (∀ b ∈ S "http://a.example/x.m3u8", b < 256)
      ∧ startsWithHttp (S "http://a.example/x.m3u8") = true
      ∧ decodeInboundUrl (percentEncode (S "http://a.example/x.m3u8"))
          = some (S "http://a.example/x.m3u8")
      ∧ decodeInboundUrl (b64encode (S "http://a.example/x.m3u8"))
          = some (S "http://a.example/x.m3u8") := by
  refine ⟨by decide, by decide, ?_, ?_⟩
  · exact (c4_roundtrip (S "http://a.example/x.m3u8") (by decide) (by decide)).1
  · exact (c4_roundtrip (S "http://a.example/x.m3u8") (by decide) (by decide)).2

/-! ## Byte-string helpers used by the rewriters -/

/-- ASCII whitespace, as removed by Python `str.strip()`. -/
def isSpaceByte (b : Nat) : Bool :=
  b == 32 || b == 9 || b == 10 || b == 11 || b == 12 || b == 13

/-- Python `str.strip()` over bytes. -/
def pyStrip (s : List Nat) : List Nat :=
  ((s.dropWhile isSpaceByte).reverse.dropWhile isSpaceByte).reverse

/-- Python `str.split(sep)` for a one-byte separator. -/
def splitOnByte (sep : Nat) : List Nat → List (List Nat)
  | [] => [[]]
  | c :: rest =>
    if c = sep then [] :: splitOnByte sep rest
    else
      match splitOnByte sep rest with
      | [] => [[c]]
      | p :: ps => (c :: p) :: ps

/-- Python `sep.join(parts)` for a one-byte separator. -/
def joinByte (sep : Nat) : List (List Nat) → List Nat
  | [] => []
  | [p] => p
  | p :: ps => p ++ sep :: joinByte sep ps

/-! ## URL resolution (`urllib.parse.urljoin`)

Modelled from the documented RFC 3986 reference-resolution behavior of
`urllib.parse.urljoin` for http/https base URLs, restricted to the reference
shapes the rewriters produce: an already-absolute reference, a network-path
reference (`//…`), an absolute path (`/…`), a relative path merged onto the
base's directory, and the empty reference (which yields the base).
Dot-segment normalization, queries and fragments do not occur in the claims'
inputs and are not modelled. -/

/-- Directory of a URL: everything up to and including the last `/`. -/
def dirOf (base : List Nat) : List Nat :=
  let parts := splitOnByte 47 base
  if parts.length ≤ 3 then base ++ [47]
  else joinByte 47 parts.dropLast ++ [47]

/-- `urllib.parse.urljoin` (see section comment above). -/
def urljoin (base rel : List Nat) : List Nat :=
  if startsWithHttp rel then rel
  else if rel = [] then base
  else if (S "//").isPrefixOf rel then (splitOnByte 47 base).headI ++ rel
  else if (S "/").isPrefixOf rel then joinByte 47 ((splitOnByte 47 base).take 3) ++ rel
  else dirOf base ++ rel

/-- `original_url.rsplit('/', 1)[0] + '/'` (src/main.py line 886): the base
URL `proxy_m3u8` resolves manifest references against. -/
def rsplitDir (s : List Nat) : List Nat :=
  let parts := splitOnByte 47 s
  if parts.length ≤ 1 then s ++ [47]
  else joinByte 47 parts.dropLast ++ [47]

/-! ## The manifest rewriters (src/main.py lines 776-785 and 885-901) -/

/-- `replace_relative_paths` of `proxy_m3u8_url_encoded` (src/main.py lines
776-783): strip the matched line; pass it through if it starts with `#` or
with `http`; otherwise resolve it against `target_url`, percent-encode, and
emit `<configured_base>/proxy/<encoded>`. -/
def replaceRelUrlEnc (target_url configured_base line : List Nat) : List Nat :=
  if (S "#").isPrefixOf (pyStrip line) || (S "http").isPrefixOf (pyStrip line) then
    pyStrip line
  else configured_base ++ S "/proxy/" ++ percentEncode (urljoin target_url (pyStrip line))

/-- `replace_relative_paths` of `proxy_m3u8` (src/main.py lines 889-899):
strip the matched line; pass it through if it starts with `#`; otherwise
resolve it against `base_url` (the manifest URL's directory), base64url-encode,
and emit `<configured_base>/proxy/<encoded>`. -/
def replaceRelB64 (base_url configured_base line : List Nat) : List Nat :=
  if (S "#").isPrefixOf (pyStrip line) then pyStrip line
  else configured_base ++ S "/proxy/" ++ b64encode (urljoin base_url (pyStrip line))

/-- One line of `re.sub(r"^(?!https?://).*$", f, body, flags=re.MULTILINE)`:
a line starting with `http://` or `https://` never matches and passes through
unchanged; every other line — the empty line included — matches whole and is
replaced by `f line` (CPython ≥ 3.7 `re.sub` semantics). -/
def processLine (f : List Nat → List Nat) (line : List Nat) : List Nat :=
  if startsWithHttp line then line else f line

/-- The whole `re.sub(..., flags=re.MULTILINE)` call over the manifest body:
split into `\n`-separated lines, process each line, re-join. -/
def processManifest (f : List Nat → List Nat) (body : List Nat) : List Nat :=
  joinByte 10 ((splitOnByte 10 body).map (processLine f))

/-- C1: for a manifest fetched with base URL
`https://origin.example.com/show/index.m3u8`, a body line `seg1.ts` is
replaced (by both handlers' rewriters) with a proxied URL whose decoded
target is `https://origin.example.com/show/seg1.ts`: the relative reference
is resolved against the manifest's own URL before re-encoding. -/
theorem c1_manifest_rewrite (cb : List Nat) :
    processLine (replaceRelUrlEnc (S "https://origin.example.com/show/index.m3u8") cb)
        (S "seg1.ts")
      = cb ++ S "/proxy/" ++ percentEncode (S "https://origin.example.com/show/seg1.ts")
    ∧ decodeInboundUrl (percentEncode (S "https://origin.example.com/show/seg1.ts"))
      = some (S "https://origin.example.com/show/seg1.ts")
    ∧ processLine
        (replaceRelB64 (rsplitDir (S "https://origin.example.com/show/index.m3u8")) cb)
        (S "seg1.ts")
      = cb ++ S "/proxy/" ++ b64encode (S "https://origin.example.com/show/seg1.ts")
    ∧ decodeInboundUrl (b64encode (S "https://origin.example.com/show/seg1.ts"))
      = some (S "https://origin.example.com/show/seg1.ts") := by
  exact ⟨rfl, by decide, rfl, by decide⟩

/-! ## C6: directive and absolute lines -/

/-- C6 counterexample: a directive line carrying trailing whitespace is NOT
passed through byte-identical — both rewriters return it stripped. -/
theorem c6_counterexample :
    processLine (replaceRelUrlEnc (S "https://o/i.m3u8") (S "http://mcp")) (S "#EXTM3U ")
        = S "#EXTM3U"
      ∧ processLine (replaceRelB64 (S "https://o/") (S "http://mcp")) (S "#EXTM3U ")
        = S "#EXTM3U"
      ∧ S "#EXTM3U" ≠ S "#EXTM3U " := by
  exact ⟨by decide, by decide, by decide⟩

/-- C6 amended: a line already starting with `http://` or `https://` passes
through byte-identical; a line whose stripped form starts with `#` is
replaced by that stripped form (byte-identical exactly when it carries no
surrounding whitespace); every other line is replaced with
`<configured-proxy-base>/proxy/<encoded-absolute-url>`. -/
theorem c6_amended (target cb line : List Nat) :
    (startsWithHttp line = true →
      processLine (replaceRelUrlEnc target cb) line = line
        ∧ processLine (replaceRelB64 target cb) line = line)
    ∧ (startsWithHttp line = false →
       (S "#").isPrefixOf (pyStrip line) = true →
      processLine (replaceRelUrlEnc target cb) line = pyStrip line
        ∧ processLine (replaceRelB64 target cb) line = pyStrip line)
    ∧ (startsWithHttp line = false →
       (S "#").isPrefixOf (pyStrip line) = false →
       (S "http").isPrefixOf (pyStrip line) = false →
      processLine (replaceRelUrlEnc target cb) line
          = cb ++ S "/proxy/" ++ percentEncode (urljoin target (pyStrip line))
        ∧ processLine (replaceRelB64 target cb) line
          = cb ++ S "/proxy/" ++ b64encode (urljoin target (pyStrip line))) := by
  refine ⟨fun h => ?_, fun h hd => ?_, fun h hd hh => ?_⟩
  · constructor <;> simp [processLine, h]
  · constructor <;> simp [processLine, replaceRelUrlEnc, replaceRelB64, h, hd]
  · constructor <;> simp [processLine, replaceRelUrlEnc, replaceRelB64, h, hd, hh]

/-- Witness for C6 amended at a directive line and a relative line. -/
theorem c6_amended_witness :
    (processLine (replaceRelUrlEnc (S "https://o/i.m3u8") (S "http://mcp")) (S "#EXTM3U")
        = pyStrip (S "#EXTM3U")
      ∧ processLine (replaceRelB64 (S "https://o/i.m3u8") (S "http://mcp")) (S "#EXTM3U")
        = pyStrip (S "#EXTM3U"))
    ∧ (processLine (replaceRelUrlEnc (S "https://o/i.m3u8") (S "http://mcp")) (S "seg1.ts")
        = S "http://mcp" ++ S "/proxy/"
            ++ percentEncode (urljoin (S "https://o/i.m3u8") (pyStrip (S "seg1.ts")))
      ∧ processLine (replaceRelB64 (S "https://o/i.m3u8") (S "http://mcp")) (S "seg1.ts")
        = S "http://mcp" ++ S "/proxy/"
            ++ b64encode (urljoin (S "https://o/i.m3u8") (pyStrip (S "seg1.ts")))) := by
  constructor
  · exact (c6_amended (S "https://o/i.m3u8") (S "http://mcp") (S "#EXTM3U")).2.1
      (by decide) (by decide)
  · exact (c6_amended (S "https://o/i.m3u8") (S "http://mcp") (S "seg1.ts")).2.2
      (by decide) (by decide) (by decide)

/-! ## C7: line count and blank lines -/

/-- C7 counterexample: a blank line does NOT pass through unchanged — the
regex `^(?!https?://).*$` matches the empty line and the rewriter replaces it
with a proxied reference to the manifest base itself. -/
theorem c7_counterexample :
    processManifest (replaceRelUrlEnc (S "https://o/show/x.m3u8") (S "http://mcp"))
        (S "#EXTM3U\n\nseg1.ts")
      = S "#EXTM3U\nhttp://mcp/proxy/https%3A%2F%2Fo%2Fshow%2Fx.m3u8\nhttp://mcp/proxy/https%3A%2F%2Fo%2Fshow%2Fseg1.ts"
    ∧ (splitOnByte 10 (processManifest
          (replaceRelUrlEnc (S "https://o/show/x.m3u8") (S "http://mcp"))
          (S "#EXTM3U\n\nseg1.ts")))[1]?
        = some (S "http://mcp/proxy/https%3A%2F%2Fo%2Fshow%2Fx.m3u8")
    ∧ S "http://mcp/proxy/https%3A%2F%2Fo%2Fshow%2Fx.m3u8" ≠ S "" := by
  exact ⟨by decide, by decide, by decide⟩

/-- `splitOnByte` never returns the empty list. -/
theorem splitOnByte_ne_nil (sep : Nat) : ∀ s : List Nat, splitOnByte sep s ≠ []
  | [] => by simp [splitOnByte]
  | c :: rest => by
    simp only [splitOnByte]
    split
    · simp
    · have h := splitOnByte_ne_nil sep rest
      match hq : splitOnByte sep rest with
      | [] => exact absurd hq h
      | p :: ps => simp

/-- Pieces produced by `splitOnByte` do not contain the separator. -/
theorem splitOnByte_mem_not_sep (sep : Nat) :
    ∀ s : List Nat, ∀ p ∈ splitOnByte sep s, sep ∉ p
  | [] => by
    intro p hp
    simp only [splitOnByte, List.mem_singleton] at hp
    subst hp; simp
  | c :: rest => by
    intro p hp
    simp only [splitOnByte] at hp
    split at hp
    · rcases List.mem_cons.mp hp with h | h
      · subst h; simp
      · exact splitOnByte_mem_not_sep sep rest p h
    · rename_i hc
      match hq : splitOnByte sep rest with
      | [] => exact absurd hq (splitOnByte_ne_nil sep rest)
      | q :: qs =>
        rw [hq] at hp
        rcases List.mem_cons.mp hp with h | h
        · subst h
          intro hmem
          rcases List.mem_cons.mp hmem with h | h
          · exact hc h.symm
          · exact splitOnByte_mem_not_sep sep rest q (by rw [hq]; simp) h
        · exact splitOnByte_mem_not_sep sep rest p (by rw [hq]; simp [h])

/-- Splitting a separator-free piece gives the piece back. -/
theorem splitOnByte_of_not_mem (sep : Nat) :
    ∀ p : List Nat, sep ∉ p → splitOnByte sep p = [p]
  | [] => by intro _; rfl
  | c :: rest => by
    intro h
    have hc : c ≠ sep := fun he => h (by simp [he])
    have hrest : sep ∉ rest := fun hm => h (by simp [hm])
    simp only [splitOnByte, if_neg (fun he => hc he)]
    rw [splitOnByte_of_not_mem sep rest hrest]

/-- Splitting a separator-free piece followed by a separator peels the piece. -/
theorem splitOnByte_append (sep : Nat) :
    ∀ p t : List Nat, sep ∉ p → splitOnByte sep (p ++ sep :: t) = p :: splitOnByte sep t
  | [], t => by intro _; simp [splitOnByte]
  | c :: rest, t => by
    intro h
    have hc : c ≠ sep := fun he => h (by simp [he])
    have hrest : sep ∉ rest := fun hm => h (by simp [hm])
    simp only [List.cons_append, splitOnByte, if_neg (fun he => hc he)]
    rw [show rest.append (sep :: t) = rest ++ sep :: t from rfl,
      splitOnByte_append sep rest t hrest]

/-- `splitOnByte` is a left inverse of `joinByte` on separator-free pieces. -/
theorem splitOnByte_joinByte (sep : Nat) :
    ∀ parts : List (List Nat), parts ≠ [] → (∀ p ∈ parts, sep ∉ p) →
      splitOnByte sep (joinByte sep parts) = parts
  | [] => by intro h _; exact absurd rfl h
  | [p] => by
    intro _ hmem
    show splitOnByte sep p = [p]
    exact splitOnByte_of_not_mem sep p (hmem p (by simp))
  | p :: q :: ps => by
    intro _ hmem
    show splitOnByte sep (p ++ sep :: joinByte sep (q :: ps)) = p :: q :: ps
    rw [splitOnByte_append sep p _ (hmem p (by simp))]
    rw [splitOnByte_joinByte sep (q :: ps) (by simp)
      (fun r hr => hmem r (by simp [List.mem_cons] at hr ⊢; tauto))]

theorem mem_dropWhile {α : Type} (p : α → Bool) :
    ∀ l : List α, ∀ x ∈ l.dropWhile p, x ∈ l
  | [] => by intro x hx; simp [List.dropWhile] at hx
  | a :: rest => by
    intro x hx
    simp only [List.dropWhile] at hx
    split at hx
    · exact List.mem_cons_of_mem a (mem_dropWhile p rest x hx)
    · exact hx

/-- Stripping only removes bytes. -/
theorem pyStrip_subset (s : List Nat) : ∀ x ∈ pyStrip s, x ∈ s := by
  intro x hx
  simp only [pyStrip, List.mem_reverse] at hx
  have h2 := mem_dropWhile isSpaceByte (s.dropWhile isSpaceByte).reverse x hx
  rw [List.mem_reverse] at h2
  exact mem_dropWhile isSpaceByte s x h2

theorem alwaysSafe_ne10 {b : Nat} (h : alwaysSafe b = true) : b ≠ 10 := by
  intro heq; subst heq; exact absurd h (by decide)

/-- Percent-encoded output never contains a newline byte. -/
theorem percentEncode_ne10 : ∀ u : List Nat, ∀ x ∈ percentEncode u, x ≠ 10 := by
  intro u
  induction u with
  | nil => intro x hx; simp [percentEncode] at hx
  | cons b rest ih =>
    intro x hx
    simp only [percentEncode, List.mem_append] at hx
    rcases hx with hx | hx
    · split at hx
      · rename_i hs
        simp only [List.mem_singleton] at hx
        subst hx; exact alwaysSafe_ne10 hs
      · simp only [List.mem_cons, List.not_mem_nil, or_false] at hx
        have h48 : ∀ n : Nat, hexDigitU n ≠ 10 := by
          intro n; unfold hexDigitU; split <;> omega
        rcases hx with h | h | h
        · omega
        · subst h; exact h48 _
        · subst h; exact h48 _
    · exact ih x hx

theorem b64c_ge45 (n : Nat) : 45 ≤ b64c n := by
  unfold b64c; split
  · omega
  · split
    · omega
    · split
      · omega
      · split <;> omega

/-- Base64url output never contains a newline byte. -/
theorem b64encode_ne10 : ∀ u : List Nat, ∀ x ∈ b64encode u, x ≠ 10
  | [] => by intro x hx; simp [b64encode] at hx
  | [a] => by
    intro x hx
    simp only [b64encode, List.mem_cons, List.not_mem_nil, or_false] at hx
    rcases hx with h | h | h | h <;> subst h
    · have := b64c_ge45 (a / 4); omega
    · have := b64c_ge45 (a % 4 * 16); omega
    · omega
    · omega
  | [a, b] => by
    intro x hx
    simp only [b64encode, List.mem_cons, List.not_mem_nil, or_false] at hx
    rcases hx with h | h | h | h <;> subst h
    · have := b64c_ge45 (a / 4); omega
    · have := b64c_ge45 (a % 4 * 16 + b / 16); omega
    · have := b64c_ge45 (b % 16 * 4); omega
    · omega
  | a :: b :: c :: rest => by
    intro x hx
    simp only [b64encode, List.mem_cons] at hx
    rcases hx with h | h | h | h | h
    · subst h; have := b64c_ge45 (a / 4); omega
    · subst h; have := b64c_ge45 (a % 4 * 16 + b / 16); omega
    · subst h; have := b64c_ge45 (b % 16 * 4 + c / 64); omega
    · subst h; have := b64c_ge45 (c % 64); omega
    · exact b64encode_ne10 rest x h

/-- The url-encoded rewriter emits no newline when its inputs have none. -/
theorem replaceRelUrlEnc_ne10 (target cb line : List Nat) (hcb : 10 ∉ cb)
    (hline : 10 ∉ line) : 10 ∉ replaceRelUrlEnc target cb line := by
  unfold replaceRelUrlEnc
  split
  · exact fun hm => hline (pyStrip_subset line 10 hm)
  · intro hm
    simp only [List.append_assoc, List.mem_append] at hm
    rcases hm with h | h | h
    · exact hcb h
    · exact absurd h (by decide)
    · exact absurd rfl (percentEncode_ne10 _ 10 h)

/-- The base64 rewriter emits no newline when its inputs have none. -/
theorem replaceRelB64_ne10 (target cb line : List Nat) (hcb : 10 ∉ cb)
    (hline : 10 ∉ line) : 10 ∉ replaceRelB64 target cb line := by
  unfold replaceRelB64
  split
  · exact fun hm => hline (pyStrip_subset line 10 hm)
  · intro hm
    simp only [List.append_assoc, List.mem_append] at hm
    rcases hm with h | h | h
    · exact hcb h
    · exact absurd h (by decide)
    · exact absurd rfl (b64encode_ne10 _ 10 h)

/-- With newline-free per-line output, the rewritten manifest splits back
into exactly the processed lines. -/
theorem processManifest_lines (f : List Nat → List Nat) (body : List Nat)
    (hf : ∀ l ∈ splitOnByte 10 body, 10 ∉ processLine f l) :
    splitOnByte 10 (processManifest f body)
      = (splitOnByte 10 body).map (processLine f) := by
  unfold processManifest
  apply splitOnByte_joinByte
  · intro h
    exact splitOnByte_ne_nil 10 body (List.map_eq_nil_iff.mp h)
  · intro p hp
    obtain ⟨l, hl, hrfl⟩ := List.mem_map.mp hp
    subst hrfl
    exact hf l hl

/-- C7 amended: the rewrite preserves line count (and order: the output is
the per-line image of the input lines), but a blank line does NOT pass
through unchanged — it is replaced with
`<base>/proxy/<encoding of the manifest base URL>`, the resolution of the
empty reference. -/
theorem c7_amended (target cb body : List Nat) (hcb : 10 ∉ cb) :
    (splitOnByte 10 (processManifest (replaceRelUrlEnc target cb) body)).length
        = (splitOnByte 10 body).length
    ∧ (splitOnByte 10 (processManifest (replaceRelB64 target cb) body)).length
        = (splitOnByte 10 body).length
    ∧ replaceRelUrlEnc target cb [] = cb ++ S "/proxy/" ++ percentEncode target
    ∧ replaceRelB64 target cb [] = cb ++ S "/proxy/" ++ b64encode target := by
  have h1 : ∀ l ∈ splitOnByte 10 body, 10 ∉ processLine (replaceRelUrlEnc target cb) l := by
    intro l hl
    have hl10 : 10 ∉ l := splitOnByte_mem_not_sep 10 body l hl
    unfold processLine
    split
    · exact hl10
    · exact replaceRelUrlEnc_ne10 target cb l hcb hl10
  have h2 : ∀ l ∈ splitOnByte 10 body, 10 ∉ processLine (replaceRelB64 target cb) l := by
    intro l hl
    have hl10 : 10 ∉ l := splitOnByte_mem_not_sep 10 body l hl
    unfold processLine
    split
    · exact hl10
    · exact replaceRelB64_ne10 target cb l hcb hl10
  refine ⟨?_, ?_, rfl, rfl⟩
  · rw [processManifest_lines _ _ h1, List.length_map]
  · rw [processManifest_lines _ _ h2, List.length_map]

/-- Witness for C7 amended at a concrete base, proxy base and body. -/
theorem c7_amended_witness :
    (10 ∉ S "http://mcp")
    ∧ ((splitOnByte 10 (processManifest
            (replaceRelUrlEnc (S "https://o/x.m3u8") (S "http://mcp")) (S "a\nb"))).length
          = (splitOnByte 10 (S "a\nb")).length
      ∧ (splitOnByte 10 (processManifest
            (replaceRelB64 (S "https://o/x.m3u8") (S "http://mcp")) (S "a\nb"))).length
          = (splitOnByte 10 (S "a\nb")).length
      ∧ replaceRelUrlEnc (S "https://o/x.m3u8") (S "http://mcp") []
          = S "http://mcp" ++ S "/proxy/" ++ percentEncode (S "https://o/x.m3u8")
      ∧ replaceRelB64 (S "https://o/x.m3u8") (S "http://mcp") []
          = S "http://mcp" ++ S "/proxy/" ++ b64encode (S "https://o/x.m3u8")) :=
  ⟨by decide, c7_amended (S "https://o/x.m3u8") (S "http://mcp") (S "a\nb") (by decide)⟩

/-! ## The playlist extractor of `fetch_episodes_data` (src/main.py 167-199) -/

/-- One parsed episode entry: title, manifest URL and originating source. -/
structure Episode where
  title : List Nat
  url : List Nat
  source : List Nat
deriving DecidableEq, Repr

/-- Python `pat in s` (substring test) over bytes. -/
def containsSub (s pat : List Nat) : Bool :=
  (List.range (s.length + 1)).any fun i => pat.isPrefixOf (s.drop i)

/-- Python `s.split('$$')`: leftmost non-overlapping splitting on the
two-byte separator. -/
def splitOnDD : List Nat → List (List Nat)
  | [] => [[]]
  | 36 :: 36 :: rest => [] :: splitOnDD rest
  | c :: rest =>
    match splitOnDD rest with
    | [] => [[c]]
    | p :: ps => (c :: p) :: ps

/-- Python `s.split('$', 1)`: the part before the first `$` and the part
after it. -/
def splitOnceDollar (s : List Nat) : List Nat × List Nat :=
  (s.takeWhile (fun b => !(b == 36)), (s.dropWhile (fun b => !(b == 36))).drop 1)

/-- Lines 173-182: pick the first `$$`-group containing `.m3u8`; fall back to
the whole string when no group does. -/
def selectM3u8Group (vod_play_url : List Nat) : List Nat :=
  match (splitOnDD vod_play_url).find? (fun g => containsSub g (S ".m3u8")) with
  | some g => g
  | none => vod_play_url

/-- Lines 186-199: strip the entry; require `$` and `.m3u8` in it; split once
on `$`; strip name and url; accept only a `.m3u8` URL beginning with
`http://` or `https://`. -/
def parseEpisodeEntry (source ep : List Nat) : Option Episode :=
  if (pyStrip ep).contains 36 && containsSub (pyStrip ep) (S ".m3u8") then
    if (S ".m3u8").isSuffixOf (pyStrip (splitOnceDollar (pyStrip ep)).2)
        && startsWithHttp (pyStrip (splitOnceDollar (pyStrip ep)).2) then
      some ⟨pyStrip (splitOnceDollar (pyStrip ep)).1,
        pyStrip (splitOnceDollar (pyStrip ep)).2, source⟩
    else none
  else none

/-- Lines 167-199 as a whole: the playlist extraction of
`fetch_episodes_data` applied to `vod_play_url`. -/
def extractEpisodes (source vod_play_url : List Nat) : List Episode :=
  (splitOnByte 35 (selectM3u8Group vod_play_url)).filterMap (parseEpisodeEntry source)

/-- C5: extraction selects the first `$$`-group containing `.m3u8` (the whole
string if none does), splits on `#`, and accepts an entry only if it contains
`$`, its URL portion ends in `.m3u8` and begins with `http://` or `https://`;
on `"EP1$http://a/1.m3u8#EP2$http://a/2.m3u8"` it yields exactly the two
entries `EP1`, `EP2` in order, drops a `.mp4` entry, and drops an entry
missing `$`. -/
theorem c5_playlist_extraction :
    (∀ source raw e, e ∈ extractEpisodes source raw →
      (S ".m3u8").isSuffixOf e.url = true ∧ startsWithHttp e.url = true
        ∧ e.source = source)
    ∧ (∀ source, extractEpisodes source (S "EP1$http://a/1.m3u8#EP2$http://a/2.m3u8")
        = [⟨S "EP1", S "http://a/1.m3u8", source⟩, ⟨S "EP2", S "http://a/2.m3u8", source⟩])
    ∧ (∀ source, extractEpisodes source
          (S "EP1$http://a/1.m3u8#EP2$http://a/2.m3u8#EP3$http://a/3.mp4")
        = [⟨S "EP1", S "http://a/1.m3u8", source⟩, ⟨S "EP2", S "http://a/2.m3u8", source⟩])
    ∧ (∀ source, extractEpisodes source (S "EP1$http://a/1.m3u8#nodollar.m3u8")
        = [⟨S "EP1", S "http://a/1.m3u8", source⟩])
    ∧ (∀ source, extractEpisodes source (S "flash$x.swf$$EP1$http://a/1.m3u8")
        = [⟨S "EP1", S "http://a/1.m3u8", source⟩]) := by
  refine ⟨?_, fun _ => rfl, fun _ => rfl, fun _ => rfl, fun _ => rfl⟩
  intro source raw e he
  obtain ⟨ep, _, hep⟩ := List.mem_filterMap.mp he
  unfold parseEpisodeEntry at hep
  split at hep
  · split at hep
    · rename_i hcond
      simp only [Option.some.injEq] at hep
      subst hep
      simp only [Bool.and_eq_true] at hcond
      exact ⟨hcond.1, hcond.2, rfl⟩
    · exact absurd hep (by simp)
  · exact absurd hep (by simp)

/-- Witness for C5's soundness half at a concrete playlist and entry. -/
theorem c5_playlist_extraction_witness :
    (S ".m3u8").isSuffixOf (Episode.url ⟨S "EP1", S "http://a/1.m3u8", S "src"⟩) = true
      ∧ startsWithHttp (Episode.url ⟨S "EP1", S "http://a/1.m3u8", S "src"⟩) = true
      ∧ (Episode.source ⟨S "EP1", S "http://a/1.m3u8", S "src"⟩) = S "src" :=
  c5_playlist_extraction.1 (S "src") (S "EP1$http://a/1.m3u8")
    ⟨S "EP1", S "http://a/1.m3u8", S "src"⟩ (by decide)

/-! ## The catalog search client (src/main.py 416-529)

The HTTP request and JSON parse of each attempt are abstracted as a function
from the attempt index to either a raised exception or the list of
`VideoResult`s built from the payload (lines 427-470).  The except clauses at
lines 472-525 follow httpx's documented class hierarchy: `ConnectTimeout` is
a subclass of `TimeoutException`/`TransportError`/`RequestError` and NOT of
`ConnectError`, so it is caught by the `except httpx.RequestError` clause,
which returns `[]` without retrying. -/

/-- A parsed search hit (only its identity matters to the claims). -/
structure Video where
  video_id : List Nat
deriving DecidableEq, Repr

/-- The distinguishable exceptions of one attempt, in the order the except
clauses test them: `httpx.HTTPStatusError`, `httpx.ConnectError`, any other
`httpx.RequestError` (which includes `httpx.ConnectTimeout`),
`json.JSONDecodeError`, any other exception. -/
inductive HErr
  | statusErr (code : Nat)
  | connectErr
  | connectTimeout
  | otherReqErr
  | jsonErr
  | otherErr
deriving DecidableEq, Repr

/-- One run of `fetch_and_parse_search_result`: the returned list, the number
of attempts performed, and the `asyncio.sleep` durations (seconds, in
order). -/
structure FetchTrace where
  result : List Video
  attemptsMade : Nat
  sleeps : List Nat
deriving DecidableEq, Repr

/-- The retry loop of `fetch_and_parse_search_result` (`max_retries = 3`).
`fuel` counts the loop iterations remaining, so at attempt index `attempt`,
`fuel = max_retries - attempt` and the code's `attempt < max_retries - 1`
test is `fuel ≠ 1`, i.e. `fuel - 1 ≠ 0` after entering the iteration.
`HTTPStatusError` and `ConnectError` sleep `2 ** attempt` seconds and retry
(except on the final attempt, where they return `[]`); every other exception
returns `[]` immediately. -/
def fapsGo (attempts : Nat → Sum HErr (List Video)) :
    Nat → Nat → List Nat → FetchTrace
  | 0, attempt, sleeps => ⟨[], attempt, sleeps.reverse⟩
  | fuel + 1, attempt, sleeps =>
    match attempts attempt with
    | Sum.inr videos => ⟨videos, attempt + 1, sleeps.reverse⟩
    | Sum.inl (HErr.statusErr _) =>
      if fuel = 0 then ⟨[], attempt + 1, sleeps.reverse⟩
      else fapsGo attempts fuel (attempt + 1) (2 ^ attempt :: sleeps)
    | Sum.inl HErr.connectErr =>
      if fuel = 0 then ⟨[], attempt + 1, sleeps.reverse⟩
      else fapsGo attempts fuel (attempt + 1) (2 ^ attempt :: sleeps)
    | Sum.inl _ => ⟨[], attempt + 1, sleeps.reverse⟩

/-- `fetch_and_parse_search_result` (src/main.py 416-529). -/
def fetchAndParseSearchResult (attempts : Nat → Sum HErr (List Video)) : FetchTrace :=
  fapsGo attempts 3 0 []

/-! ## The search orchestrator `search_movie_endpoint` (src/main.py 325-409) -/

/-- One configured source, as iterated from `sources_config.root.items()`. -/
structure SourceCfg where
  key : List Nat
  name : List Nat
deriving DecidableEq, Repr

/-- A Python exception value reaching `asyncio.gather` (only its `str`). -/
structure PyExn where
  msg : List Nat
deriving DecidableEq, Repr

/-- `', '.join(parts)`. -/
def joinCommaSp : List (List Nat) → List Nat
  | [] => []
  | [p] => p
  | p :: ps => p ++ S ", " ++ joinCommaSp ps

/-- The "source not found" message of line 358 (its f-string skeleton with
the two holes filled). -/
def sourceNotFoundMsg (name : List Nat) (available : List (List Nat)) : List Nat :=
  S "未找到名为 '" ++ name ++ S "' 的视频源。可用的源: " ++ joinCommaSp available

/-- The collection loop at lines 382-397: extend `all_videos` with each list
result in task order; for a result that is an exception, append
`f"{source_name}: {exn}"` to `failed_sources`. -/
def collectResults :
    List (List Nat × Sum PyExn (List Video)) → List Video × List (List Nat)
  | [] => ([], [])
  | (name, r) :: rest =>
    match r with
    | Sum.inr vids => (vids ++ (collectResults rest).1, (collectResults rest).2)
    | Sum.inl e =>
      ((collectResults rest).1, (name ++ S ": " ++ e.msg) :: (collectResults rest).2)

/-- Outcome of `search_movie_endpoint`: the HTTP response (the 400 error with
its detail message, or the merged hit list), the internal `failed_sources`
list (it is only logged, never returned), and the total number of HTTP
attempts issued toward sources. -/
structure SearchOutcome where
  response : Sum (Nat × List Nat) (List Video)
  failedSources : List (List Nat)
  networkCalls : Nat

/-- Lines 366-409: one task per selected source, each awaiting
`fetch_and_parse_search_result`, which handles every exception internally and
always returns a list — so each `asyncio.gather` slot holds a list
(`Sum.inr`); the `isinstance(res, Exception)` arm of the loop is the
`Sum.inl` case of `collectResults`. -/
def runSearch (selected : List SourceCfg)
    (behavior : List Nat → Nat → Sum HErr (List Video)) : SearchOutcome :=
  { response := Sum.inr (collectResults (selected.map fun s =>
      (s.name, Sum.inr (fetchAndParseSearchResult (behavior s.key)).result))).1
    failedSources := (collectResults (selected.map fun s =>
      (s.name, Sum.inr (fetchAndParseSearchResult (behavior s.key)).result))).2
    networkCalls := (selected.map fun s =>
      (fetchAndParseSearchResult (behavior s.key)).attemptsMade).sum }

/-- `search_movie_endpoint` (src/main.py 325-409): source selection at lines
345-364 — with a `source_name` filter, take the first matching source, or
raise `HTTPException(400, …)` listing the available names before any task is
created; without a filter, search all sources. -/
def searchMovieEndpoint (sources : List SourceCfg) (specified : Option (List Nat))
    (behavior : List Nat → Nat → Sum HErr (List Video)) : SearchOutcome :=
  match specified with
  | none => runSearch sources behavior
  | some name =>
    match sources.find? (fun s => s.name == name) with
    | some src => runSearch [src] behavior
    | none =>
      { response := Sum.inl (400, sourceNotFoundMsg name (sources.map (·.name)))
        failedSources := []
        networkCalls := 0 }

/-- With every gathered slot a list, the loop collects all hits in task order
and no failure entry. -/
theorem collectResults_inr :
    ∀ (l : List SourceCfg) (f : SourceCfg → List Video),
      collectResults (l.map fun s => (s.name, Sum.inr (f s)))
        = ((l.map f).flatten, [])
  | [], _ => rfl
  | s :: rest, f => by
    simp only [List.map_cons, collectResults, collectResults_inr rest f,
      List.flatten_cons]

/-! ## C2: one failing source among healthy ones -/

/-- Two sources for the C2 counterexample. -/
def c2Sources : List SourceCfg := [⟨S "k1", S "sourceA"⟩, ⟨S "k2", S "sourceB"⟩]

/-- `k1` answers HTTP 500 on every attempt; `k2` succeeds immediately. -/
def c2Behavior : List Nat → Nat → Sum HErr (List Video) := fun key _ =>
  if key == S "k1" then Sum.inl (HErr.statusErr 500) else Sum.inr [⟨S "42"⟩]

/-- C2 counterexample: with source A failing every attempt with HTTP 500 and
source B healthy, the orchestrator returns B's hits but reports ZERO failure
entries, not exactly one naming A: the repeated 500s are absorbed inside
`fetch_and_parse_search_result`, which returns `[]`, and the endpoint counts
that as a success. -/
theorem c2_counterexample :
    (searchMovieEndpoint c2Sources none c2Behavior).response = Sum.inr [⟨S "42"⟩]
      ∧ (searchMovieEndpoint c2Sources none c2Behavior).failedSources = []
      ∧ ((searchMovieEndpoint c2Sources none c2Behavior).failedSources).length ≠ 1 := by
  exact ⟨rfl, rfl, by decide⟩

/-- C2 amended: when exactly one selected source fails every attempt with
HTTP 500 and the others succeed, the orchestrator returns the healthy
sources' hits in source order — the failed source contributing an empty
list — and reports no failure entry at all: per-source HTTP failures are
absorbed by the catalog client, so `failed_sources` stays empty and the
response never names the failed source. -/
theorem c2_amended (pre post : List SourceCfg) (bad : SourceCfg)
    (hits : List Nat → List Video)
    (behavior : List Nat → Nat → Sum HErr (List Video))
    (hbad : ∀ n, behavior bad.key n = Sum.inl (HErr.statusErr 500))
    (hgood : ∀ s ∈ pre ++ post, ∀ n, behavior s.key n = Sum.inr (hits s.key)) :
    (searchMovieEndpoint (pre ++ bad :: post) none behavior).response
        = Sum.inr ((pre.map fun s => hits s.key).flatten
            ++ (post.map fun s => hits s.key).flatten)
      ∧ (searchMovieEndpoint (pre ++ bad :: post) none behavior).failedSources = [] := by
  have hfb : fetchAndParseSearchResult (behavior bad.key) = ⟨[], 3, [1, 2]⟩ := by
    unfold fetchAndParseSearchResult
    simp [fapsGo, hbad 0, hbad 1, hbad 2, pow_zero, pow_one]
  have hfg : ∀ s ∈ pre ++ post,
      fetchAndParseSearchResult (behavior s.key) = ⟨hits s.key, 1, []⟩ := by
    intro s hs
    unfold fetchAndParseSearchResult
    simp [fapsGo, hgood s hs 0]
  have hpre : pre.map (fun s => (fetchAndParseSearchResult (behavior s.key)).result)
      = pre.map fun s => hits s.key :=
    List.map_congr_left fun s hs => by rw [hfg s (List.mem_append_left post hs)]
  have hpost : post.map (fun s => (fetchAndParseSearchResult (behavior s.key)).result)
      = post.map fun s => hits s.key :=
    List.map_congr_left fun s hs => by rw [hfg s (List.mem_append_right pre hs)]
  show (runSearch (pre ++ bad :: post) behavior).response = _
    ∧ (runSearch (pre ++ bad :: post) behavior).failedSources = _
  unfold runSearch
  rw [collectResults_inr (pre ++ bad :: post)
    (fun s => (fetchAndParseSearchResult (behavior s.key)).result)]
  constructor
  · simp only [List.map_append, List.map_cons, List.flatten_append, List.flatten_cons,
      hpre, hpost, hfb, List.nil_append]
  · rfl

/-- Witness for C2 amended: A (500-failing) between no sources and B. -/
theorem c2_amended_witness :
    (searchMovieEndpoint ([⟨S "k2", S "sourceB"⟩] ++ ⟨S "k1", S "sourceA"⟩ :: []) none
          c2Behavior).response
        = Sum.inr (([(⟨S "k2", S "sourceB"⟩ : SourceCfg)].map
              fun _ => [(⟨S "42"⟩ : Video)]).flatten
            ++ (([] : List SourceCfg).map fun _ => [(⟨S "42"⟩ : Video)]).flatten)
      ∧ (searchMovieEndpoint ([⟨S "k2", S "sourceB"⟩] ++ ⟨S "k1", S "sourceA"⟩ :: []) none
          c2Behavior).failedSources = [] := by
  exact c2_amended [⟨S "k2", S "sourceB"⟩] [] ⟨S "k1", S "sourceA"⟩
    (fun _ => [(⟨S "42"⟩ : Video)]) c2Behavior (fun _ => rfl)
    (by intro s hs; simp at hs; subst hs; intro n; rfl)

/-! ## C3: retry policy of the catalog search client -/

/-- C3 counterexample: a connect-timeout is NOT retried by
`fetch_and_parse_search_result`: `httpx.ConnectTimeout` is a subclass of
`httpx.RequestError` but not of `httpx.ConnectError`, so the
`except httpx.RequestError` clause returns `[]` after a single attempt with
no backoff sleep — not 3 attempts with 1s and 2s waits. -/
theorem c3_counterexample :
    fetchAndParseSearchResult (fun _ => Sum.inl HErr.connectTimeout)
      = ⟨[], 1, []⟩ := rfl

/-- C3 amended: the search client retries up to 3 attempts on HTTP status
errors (4xx/5xx) and transport-level connect failures, sleeping `2^attempt`
seconds after failed attempts 0 and 1 (waits of 1s then 2s) and giving up
after the third attempt; a success on the final attempt is returned; but a
connect-timeout (like any other request error, JSON error, or unknown error)
is not retried and yields `[]` after one attempt. -/
theorem c3_amended (e : Nat → HErr) (vids : List Video)
    (hretry : ∀ n, (∃ c, e n = HErr.statusErr c) ∨ e n = HErr.connectErr) :
    fetchAndParseSearchResult (fun n => Sum.inl (e n)) = ⟨[], 3, [1, 2]⟩
      ∧ fetchAndParseSearchResult
          (fun n => if n < 2 then Sum.inl (e n) else Sum.inr vids)
        = ⟨vids, 3, [1, 2]⟩
      ∧ fetchAndParseSearchResult (fun _ => Sum.inl HErr.connectTimeout)
        = ⟨[], 1, []⟩ := by
  refine ⟨?_, ?_, rfl⟩
  · rcases hretry 0 with ⟨c0, h0⟩ | h0 <;>
      rcases hretry 1 with ⟨c1, h1⟩ | h1 <;>
        rcases hretry 2 with ⟨c2, h2⟩ | h2 <;>
          simp [fetchAndParseSearchResult, fapsGo, h0, h1, h2, pow_zero, pow_one]
  · rcases hretry 0 with ⟨c0, h0⟩ | h0 <;>
      rcases hretry 1 with ⟨c1, h1⟩ | h1 <;>
        simp [fetchAndParseSearchResult, fapsGo, h0, h1, pow_zero, pow_one]

/-- Witness for C3 amended with constant HTTP 500 errors. -/
theorem c3_amended_witness :
    fetchAndParseSearchResult (fun n => Sum.inl ((fun _ => HErr.statusErr 500) n))
        = ⟨[], 3, [1, 2]⟩
      ∧ fetchAndParseSearchResult
          (fun n => if n < 2 then Sum.inl ((fun _ => HErr.statusErr 500) n)
            else Sum.inr [(⟨S "42"⟩ : Video)])
        = ⟨[⟨S "42"⟩], 3, [1, 2]⟩
      ∧ fetchAndParseSearchResult (fun _ => Sum.inl HErr.connectTimeout)
        = ⟨[], 1, []⟩ :=
  c3_amended (fun _ => HErr.statusErr 500) [⟨S "42"⟩] (fun _ => Or.inl ⟨500, rfl⟩)

/-! ## C8: unknown `source_name` filter fails fast -/

/-- Every joined part occurs contiguously in `', '.join(parts)`. -/
theorem mem_infix_joinCommaSp :
    ∀ (parts : List (List Nat)) (p : List Nat), p ∈ parts → p <:+: joinCommaSp parts
  | [], p => by intro h; simp at h
  | [q], p => by
    intro h
    simp only [List.mem_singleton] at h
    subst h
    exact List.infix_refl _
  | q :: r :: rest, p => by
    intro h
    rcases List.mem_cons.mp h with h | h
    · subst h
      exact ⟨[], S ", " ++ joinCommaSp (r :: rest), by simp [joinCommaSp]⟩
    · obtain ⟨u, v, huv⟩ := mem_infix_joinCommaSp (r :: rest) p h
      exact ⟨q ++ S ", " ++ u, v, by simp [joinCommaSp, ← huv, List.append_assoc]⟩

/-- C8: a `source_name` filter matching no registered source makes the call
fail fast with the HTTP 400 "source not found" error whose message contains
every available source name, and zero HTTP attempts are issued toward any
source. -/
theorem c8_source_not_found (sources : List SourceCfg) (name : List Nat)
    (behavior : List Nat → Nat → Sum HErr (List Video))
    (hmiss : ∀ s ∈ sources, s.name ≠ name) :
    (searchMovieEndpoint sources (some name) behavior).response
        = Sum.inl (400, sourceNotFoundMsg name (sources.map (·.name)))
      ∧ (searchMovieEndpoint sources (some name) behavior).networkCalls = 0
      ∧ ∀ s ∈ sources, s.name <:+: sourceNotFoundMsg name (sources.map (·.name)) := by
  have hf : sources.find? (fun s => s.name == name) = none :=
    List.find?_eq_none.mpr fun s hs => by simp [hmiss s hs]
  refine ⟨?_, ?_, ?_⟩
  · simp [searchMovieEndpoint, hf]
  · simp [searchMovieEndpoint, hf]
  · intro s hs
    obtain ⟨u, v, huv⟩ :=
      mem_infix_joinCommaSp (sources.map (·.name)) s.name (List.mem_map_of_mem _ hs)
    exact ⟨(S "未找到名为 '" ++ name ++ S "' 的视频源。可用的源: ") ++ u, v, by
      simp [sourceNotFoundMsg, ← huv, List.append_assoc]⟩

/-- Witness for C8 with one configured source and a missing name. -/
theorem c8_source_not_found_witness :
    (searchMovieEndpoint [⟨S "k1", S "sourceA"⟩] (some (S "missing"))
          (fun _ _ => Sum.inr [])).response
        = Sum.inl (400, sourceNotFoundMsg (S "missing")
            (([⟨S "k1", S "sourceA"⟩] : List SourceCfg).map (·.name)))
      ∧ (searchMovieEndpoint [⟨S "k1", S "sourceA"⟩] (some (S "missing"))
          (fun _ _ => Sum.inr [])).networkCalls = 0
      ∧ ∀ s ∈ ([⟨S "k1", S "sourceA"⟩] : List SourceCfg),
          s.name <:+: sourceNotFoundMsg (S "missing")
            (([⟨S "k1", S "sourceA"⟩] : List SourceCfg).map (·.name)) :=
  c8_source_not_found [⟨S "k1", S "sourceA"⟩] (S "missing") (fun _ _ => Sum.inr [])
    (by decide)

/-! ## C9: response header policy (src/main.py 793-810 and 913-931) -/

/-- `str.lower()` on an ASCII byte. -/
def lowerByte (b : Nat) : Nat := if 65 ≤ b ∧ b ≤ 90 then b + 32 else b

/-- `key.lower()` over bytes. -/
def lowerBytes (l : List Nat) : List Nat := l.map lowerByte

/-- `key.lower() in ['content-encoding', 'content-length', 'transfer-encoding']`. -/
def isHopHeader (k : List Nat) : Bool :=
  lowerBytes k == S "content-encoding" || lowerBytes k == S "content-length"
    || lowerBytes k == S "transfer-encoding"

/-- The header-copy loop of both handlers (lines 794-798 and 914-919): keep
origin headers whose lowercased key is not stripped, in order. -/
def stripHopHeaders (hs : List (List Nat × List Nat)) : List (List Nat × List Nat) :=
  hs.filter fun kv => !isHopHeader kv.1

/-- Python dict assignment `d[k] = v` on an insertion-ordered association
list: overwrite in place when the key is present, else append. -/
def dictSet (hs : List (List Nat × List Nat)) (k v : List Nat) :
    List (List Nat × List Nat) :=
  if hs.any fun kv => kv.1 == k then
    hs.map fun kv => if kv.1 == k then (k, v) else kv
  else hs ++ [(k, v)]

/-- The three CORS assignments of `proxy_m3u8_url_encoded` (lines 800-802)
applied after the header-copy loop. -/
def corsBase (origin : List (List Nat × List Nat)) : List (List Nat × List Nat) :=
  dictSet (dictSet (dictSet (stripHopHeaders origin)
    (S "Access-Control-Allow-Origin") (S "*"))
    (S "Access-Control-Allow-Methods") (S "GET, POST, OPTIONS"))
    (S "Access-Control-Allow-Headers") (S "*")

/-- Response headers of `proxy_m3u8_url_encoded` (lines 793-804): strip the
hop headers, add the CORS headers, then `if content_type:` set
`Content-Type`. -/
def respHeadersUrlEnc (origin : List (List Nat × List Nat)) (ct : List Nat) :
    List (List Nat × List Nat) :=
  if ct ≠ [] then dictSet (corsBase origin) (S "Content-Type") ct else corsBase origin

/-- Response headers of `proxy_m3u8` (lines 913-922): strip the hop headers
and set `Cache-Control` — no CORS header is added here. -/
def respHeadersB64 (origin : List (List Nat × List Nat)) :
    List (List Nat × List Nat) :=
  dictSet (stripHopHeaders origin) (S "Cache-Control") (S "public, max-age=3600")

/-- C9 counterexample: the path-encoded handler `proxy_m3u8` does NOT add
permissive CORS headers — for an origin response with no headers, its
response headers are just `Cache-Control` and contain no
`Access-Control-Allow-Origin` at all. -/
theorem c9_counterexample :
    respHeadersB64 [] = [(S "Cache-Control", S "public, max-age=3600")]
      ∧ (respHeadersB64 []).all
          (fun kv => !(kv.1 == S "Access-Control-Allow-Origin")) = true := by
  exact ⟨rfl, by decide⟩

theorem dictSet_mem_self (hs : List (List Nat × List Nat)) (k v : List Nat) :
    (k, v) ∈ dictSet hs k v := by
  unfold dictSet
  split
  · rename_i hany
    obtain ⟨kv, hkv, hk⟩ := List.any_eq_true.mp hany
    refine List.mem_map.mpr ⟨kv, hkv, ?_⟩
    simp [hk]
  · exact List.mem_append_right _ (by simp)

theorem dictSet_mem_preserve (hs : List (List Nat × List Nat)) (k v k' v' : List Nat)
    (hne : k ≠ k') (h : (k, v) ∈ hs) : (k, v) ∈ dictSet hs k' v' := by
  unfold dictSet
  split
  · refine List.mem_map.mpr ⟨(k, v), h, ?_⟩
    simp [hne]
  · exact List.mem_append_left _ h

theorem dictSet_mem_src (hs : List (List Nat × List Nat)) (k' v' : List Nat) :
    ∀ kv ∈ dictSet hs k' v', kv.1 = k' ∨ kv ∈ hs := by
  intro kv hkv
  unfold dictSet at hkv
  split at hkv
  · obtain ⟨kv0, hkv0, heq⟩ := List.mem_map.mp hkv
    by_cases hk : (kv0.1 == k') = true
    · rw [if_pos hk] at heq
      subst heq
      left; rfl
    · rw [if_neg hk] at heq
      subst heq
      right; exact hkv0
  · rcases List.mem_append.mp hkv with h | h
    · right; exact h
    · simp only [List.mem_singleton] at h
      subst h
      left; rfl

theorem stripHop_not_hop (origin : List (List Nat × List Nat)) :
    ∀ kv ∈ stripHopHeaders origin, isHopHeader kv.1 = false := by
  intro kv hkv
  have h := List.mem_filter.mp hkv
  simpa using h.2

/-- C9 amended: both handlers strip `content-encoding`, `content-length` and
`transfer-encoding` (case-insensitively); but only the query-encoded handler
adds the permissive CORS headers — the path-encoded handler adds a
`Cache-Control` header and no CORS header. -/
theorem c9_amended (origin : List (List Nat × List Nat)) (ct : List Nat) :
    (∀ kv ∈ respHeadersUrlEnc origin ct, isHopHeader kv.1 = false)
      ∧ (S "Access-Control-Allow-Origin", S "*") ∈ respHeadersUrlEnc origin ct
      ∧ (S "Access-Control-Allow-Methods", S "GET, POST, OPTIONS")
          ∈ respHeadersUrlEnc origin ct
      ∧ (S "Access-Control-Allow-Headers", S "*") ∈ respHeadersUrlEnc origin ct
      ∧ (∀ kv ∈ respHeadersB64 origin, isHopHeader kv.1 = false)
      ∧ (S "Cache-Control", S "public, max-age=3600") ∈ respHeadersB64 origin := by
  have hbase : ∀ kv ∈ corsBase origin, isHopHeader kv.1 = false := by
    intro kv hkv
    rcases dictSet_mem_src _ _ _ kv hkv with h | hkv2
    · rw [h]; decide
    rcases dictSet_mem_src _ _ _ kv hkv2 with h | hkv3
    · rw [h]; decide
    rcases dictSet_mem_src _ _ _ kv hkv3 with h | hkv4
    · rw [h]; decide
    exact stripHop_not_hop origin kv hkv4
  have hUrl : ∀ k v : List Nat, (k, v) ∈ corsBase origin → k ≠ S "Content-Type" →
      (k, v) ∈ respHeadersUrlEnc origin ct := by
    intro k v h hk
    unfold respHeadersUrlEnc
    split
    · exact dictSet_mem_preserve _ _ _ _ _ hk h
    · exact h
  have hACAH : (S "Access-Control-Allow-Headers", S "*") ∈ corsBase origin :=
    dictSet_mem_self _ _ _
  have hACAM : (S "Access-Control-Allow-Methods", S "GET, POST, OPTIONS")
      ∈ corsBase origin :=
    dictSet_mem_preserve _ _ _ _ _ (by decide) (dictSet_mem_self _ _ _)
  have hACAO : (S "Access-Control-Allow-Origin", S "*") ∈ corsBase origin :=
    dictSet_mem_preserve _ _ _ _ _ (by decide)
      (dictSet_mem_preserve _ _ _ _ _ (by decide) (dictSet_mem_self _ _ _))
  refine ⟨?_, hUrl _ _ hACAO (by decide), hUrl _ _ hACAM (by decide),
    hUrl _ _ hACAH (by decide), ?_, dictSet_mem_self _ _ _⟩
  · intro kv hkv
    unfold respHeadersUrlEnc at hkv
    split at hkv
    · rcases dictSet_mem_src _ _ _ kv hkv with h | h
      · rw [h]; decide
      · exact hbase kv h
    · exact hbase kv hkv
  · intro kv hkv
    rcases dictSet_mem_src _ _ _ kv hkv with h | h
    · rw [h]; decide
    · exact stripHop_not_hop origin kv h

/-- Witness for C9 amended at a concrete origin header set. -/
theorem c9_amended_witness :
    isHopHeader
        (Prod.fst ((S "Access-Control-Allow-Origin", S "*") : List Nat × List Nat))
      = false
    ∧ (S "Access-Control-Allow-Origin", S "*")
        ∈ respHeadersUrlEnc [(S "Content-Encoding", S "gzip")]
            (S "application/vnd.apple.mpegurl") := by
  constructor
  · exact (c9_amended [(S "Content-Encoding", S "gzip")]
      (S "application/vnd.apple.mpegurl")).1
      (S "Access-Control-Allow-Origin", S "*")
      (c9_amended [(S "Content-Encoding", S "gzip")]
        (S "application/vnd.apple.mpegurl")).2.1
  · exact (c9_amended [(S "Content-Encoding", S "gzip")]
      (S "application/vnd.apple.mpegurl")).2.1

/-! ## `fetch_episodes_data` and `get_episodes_data` (src/main.py 103-265)

Each HTTP GET + `raise_for_status()` + `.json()` is abstracted as a
`JsonResp`; the source lookup, the optional search phase, the detail retry
loop and every `except` clause are embedded below. -/

/-- One item of a maccms `list` payload, with the fields the code reads. -/
structure Item where
  vod_id : Option (List Nat)
  vod_play_url : Option (List Nat)

/-- Outcome of one request: a raised exception, or a parsed payload whose
`list` field is absent (`none`) or a list of items. -/
inductive JsonResp
  | err (e : HErr)
  | ok (listField : Option (List Item))

/-- `str(x)`: Python renders the missing value `None` as `"None"`. -/
def strOf : Option (List Nat) → List Nat
  | none => S "None"
  | some s => s

/-- A detail attempt that raises, or whose payload has no nonempty `list`
(the code raises `ValueError` for the latter, caught by the retrying
`except Exception` clause). -/
def detailFailed : JsonResp → Bool
  | JsonResp.err _ => true
  | JsonResp.ok none => true
  | JsonResp.ok (some []) => true
  | JsonResp.ok (some (_ :: _)) => false

/-- The detail retry loop of `fetch_episodes_data` (lines 144-228,
`max_retries = 3`): an attempt whose payload has a first item with
`vod_play_url` returns the extracted episodes; a first item without
`vod_play_url` returns `[]` at once (lines 163-165); every other outcome —
`ConnectTimeout`, `HTTPStatusError` or any other exception, including the
`ValueError` raised for an absent or empty `list` — sleeps `2 ** attempt`
and retries, degrading to `[]` when the retries are exhausted.  Returns
(episodes, attempts made, sleeps). -/
def detailLoopGo (src : List Nat) (attempts : Nat → JsonResp) :
    Nat → Nat → List Nat → List Episode × Nat × List Nat
  | 0, attempt, sleeps => ([], attempt, sleeps.reverse)
  | fuel + 1, attempt, sleeps =>
    match attempts attempt with
    | JsonResp.ok (some (item :: _)) =>
      match item.vod_play_url with
      | some url => (extractEpisodes src url, attempt + 1, sleeps.reverse)
      | none => ([], attempt + 1, sleeps.reverse)
    | _ =>
      if fuel = 0 then ([], attempt + 1, sleeps.reverse)
      else detailLoopGo src attempts fuel (attempt + 1) (2 ^ attempt :: sleeps)

/-- The search phase of `fetch_episodes_data` (lines 127-141), entered when
no usable original id was supplied: a raised exception propagates to the
outer handler (→ `[]`), an absent or empty `list` raises `ValueError`
(→ `[]`), a falsy id raises `ValueError` (→ `[]`); otherwise the detail loop
runs. -/
def episodesViaSearch (searchResp : JsonResp) (src : List Nat)
    (detailResp : Nat → JsonResp) : List Episode :=
  match searchResp with
  | JsonResp.err _ => []
  | JsonResp.ok none => []
  | JsonResp.ok (some []) => []
  | JsonResp.ok (some (item :: _)) =>
    if strOf item.vod_id = [] then []
    else (detailLoopGo src detailResp 3 0 []).1

/-- `fetch_episodes_data` (lines 103-233): look up the source by name — an
unknown source raises `ValueError`, caught by the outer handler (→ `[]`);
with no truthy original id, search first; then run the detail retry loop. -/
def fetchEpisodesData (sources : List SourceCfg) (searchResp : JsonResp)
    (detailResp : Nat → JsonResp) (source : List Nat)
    (originalId : Option (List Nat)) : List Episode :=
  match sources.find? (fun s => s.name == source) with
  | none => []
  | some _ =>
    match originalId with
    | some vid =>
      if vid = [] then episodesViaSearch searchResp source detailResp
      else (detailLoopGo source detailResp 3 0 []).1
    | none => episodesViaSearch searchResp source detailResp

/-- The success payload of `get_episodes_data` (lines 248-256). -/
structure EpisodesResponse where
  success : Bool
  episodes : List Episode
  total_count : Nat

/-- `get_episodes_data` (lines 236-265): awaits `fetch_episodes_data` inside
`try` and builds the success payload; the `except` branch (success `False`)
is unreachable because `fetch_episodes_data` catches every exception and
returns a list — mirrored here by the embedding being total. -/
def getEpisodesData (sources : List SourceCfg) (searchResp : JsonResp)
    (detailResp : Nat → JsonResp) (source : List Nat)
    (originalId : Option (List Nat)) : EpisodesResponse :=
  { success := true
    episodes := fetchEpisodesData sources searchResp detailResp source originalId
    total_count :=
      (fetchEpisodesData sources searchResp detailResp source originalId).length }

theorem detailLoopGo_failed_step (src : List Nat) (attempts : Nat → JsonResp)
    (fuel attempt : Nat) (sleeps : List Nat)
    (h : detailFailed (attempts attempt) = true) :
    detailLoopGo src attempts (fuel + 1) attempt sleeps
      = if fuel = 0 then ([], attempt + 1, sleeps.reverse)
        else detailLoopGo src attempts fuel (attempt + 1) (2 ^ attempt :: sleeps) := by
  rcases hq : attempts attempt with e | lf
  · simp [detailLoopGo, hq]
  · rcases lf with _ | l
    · simp [detailLoopGo, hq]
    · rcases l with _ | ⟨item, rest⟩
      · simp [detailLoopGo, hq]
      · rw [hq] at h
        simp [detailFailed] at h

/-- When every attempt fails, the detail loop degrades to `[]`. -/
theorem detailLoopGo_all_failed (src : List Nat) (attempts : Nat → JsonResp)
    (hfail : ∀ n, detailFailed (attempts n) = true) :
    ∀ fuel attempt sleeps, (detailLoopGo src attempts fuel attempt sleeps).1 = []
  | 0, _, _ => rfl
  | fuel + 1, attempt, sleeps => by
    rw [detailLoopGo_failed_step src attempts fuel attempt sleeps (hfail attempt)]
    split
    · rfl
    · exact detailLoopGo_all_failed src attempts hfail fuel (attempt + 1) _

/-- C10: `fetch_episodes_data` returns a (possibly empty) list and never
raises — unknown source, search failure or empty search result, exhausted
detail retries, and missing `vod_play_url` each degrade to `[]` — and in all
those cases `get_episodes_data` reports success with `total_count` 0; in
general the endpoint always reports success with `total_count` the number of
episodes. -/
theorem c10_fetch_episodes_total (sources : List SourceCfg) (searchResp : JsonResp)
    (detailResp : Nat → JsonResp) (source : List Nat)
    (originalId : Option (List Nat)) :
    ((∀ s ∈ sources, s.name ≠ source) →
      fetchEpisodesData sources searchResp detailResp source originalId = []
        ∧ getEpisodesData sources searchResp detailResp source originalId
          = ⟨true, [], 0⟩)
    ∧ (((∃ e, searchResp = JsonResp.err e) ∨ searchResp = JsonResp.ok none
          ∨ searchResp = JsonResp.ok (some [])) →
        fetchEpisodesData sources searchResp detailResp source none = []
          ∧ getEpisodesData sources searchResp detailResp source none
            = ⟨true, [], 0⟩)
    ∧ ((∀ n, detailFailed (detailResp n) = true) → ∀ vid, vid ≠ [] →
        fetchEpisodesData sources searchResp detailResp source (some vid) = []
          ∧ getEpisodesData sources searchResp detailResp source (some vid)
            = ⟨true, [], 0⟩)
    ∧ (∀ item rest, detailResp 0 = JsonResp.ok (some (item :: rest)) →
        item.vod_play_url = none → ∀ vid, vid ≠ [] →
        fetchEpisodesData sources searchResp detailResp source (some vid) = []
          ∧ getEpisodesData sources searchResp detailResp source (some vid)
            = ⟨true, [], 0⟩)
    ∧ (getEpisodesData sources searchResp detailResp source originalId).success = true
    ∧ (getEpisodesData sources searchResp detailResp source originalId).total_count
        = (fetchEpisodesData sources searchResp detailResp source originalId).length := by
  refine ⟨fun hmiss => ?_, fun hbad => ?_, fun hfail vid hvid => ?_,
    fun item rest h0 hplay vid hvid => ?_, rfl, rfl⟩
  · have hf : sources.find? (fun s => s.name == source) = none :=
      List.find?_eq_none.mpr fun s hs => by simp [hmiss s hs]
    have h : fetchEpisodesData sources searchResp detailResp source originalId = [] := by
      unfold fetchEpisodesData
      rw [hf]
    exact ⟨h, by simp [getEpisodesData, h]⟩
  · have h : fetchEpisodesData sources searchResp detailResp source none = [] := by
      unfold fetchEpisodesData
      cases hf : sources.find? (fun s => s.name == source) with
      | none => rfl
      | some src =>
        rcases hbad with ⟨e, he⟩ | he | he <;> subst he <;> rfl
    exact ⟨h, by simp [getEpisodesData, h]⟩
  · have hloop := detailLoopGo_all_failed source detailResp hfail 3 0 []
    have h : fetchEpisodesData sources searchResp detailResp source (some vid) = [] := by
      unfold fetchEpisodesData
      cases hf : sources.find? (fun s => s.name == source) with
      | none => rfl
      | some src => simp [hvid, hloop]
    exact ⟨h, by simp [getEpisodesData, h]⟩
  · have hloop : (detailLoopGo source detailResp 3 0 []).1 = [] := by
      simp [detailLoopGo, h0, hplay]
    have h : fetchEpisodesData sources searchResp detailResp source (some vid) = [] := by
      unfold fetchEpisodesData
      cases hf : sources.find? (fun s => s.name == source) with
      | none => rfl
      | some src => simp [hvid, hloop]
    exact ⟨h, by simp [getEpisodesData, h]⟩

/-- Witness for C10 at an unknown source name. -/
theorem c10_fetch_episodes_total_witness :
    fetchEpisodesData [⟨S "k1", S "sourceA"⟩] (JsonResp.ok none)
        (fun _ => JsonResp.ok none) (S "missing") none = []
      ∧ getEpisodesData [⟨S "k1", S "sourceA"⟩] (JsonResp.ok none)
          (fun _ => JsonResp.ok none) (S "missing") none = ⟨true, [], 0⟩ :=
  (c10_fetch_episodes_total [⟨S "k1", S "sourceA"⟩] (JsonResp.ok none)
    (fun _ => JsonResp.ok none) (S "missing") none).1 (by decide)
